import Mathlib

/-!
Verification of the `canvas_sak` score-derivation and course-validation
commands.  The Python source under `canvas_sak/commands/` is shallowly
embedded: pure helper functions become Lean functions over `List Char`,
`String`, `ℚ` and `ℤ`; Python floats are modelled exactly by rationals
(all arithmetic exercised here is exact); dates are modelled as integer
microsecond timestamps (the resolution of `datetime.timedelta`); code
that can raise an exception returns `Except`.
-/

namespace CanvasSak

/-! ## Name normalizer (`derive_assignment_score.normalize_name`) -/

/-- Characters matched by the Python regex class `[\s+\-*/]` (ASCII
whitespace as matched by `\s`, plus the four arithmetic operators). -/
def isOpSpace (c : Char) : Bool :=
  c = ' ' || c = '\t' || c = '\n' || c = '\r' || c = '\x0b' || c = '\x0c'
    || c = '+' || c = '-' || c = '*' || c = '/'

/-- `re.sub(r'[\s+\-*/]+', '_', name)` on a character list: each maximal
run of operator/space characters is replaced by a single underscore.
`inRun` records whether the previous character belonged to such a run. -/
def collapseAux (inRun : Bool) : List Char → List Char
  | [] => []
  | c :: cs =>
    if isOpSpace c then
      if inRun then collapseAux true cs else '_' :: collapseAux true cs
    else c :: collapseAux false cs

def collapseRuns (l : List Char) : List Char := collapseAux false l

/-- Python `str.strip(chars)`: drop the characters satisfying `p` from both
ends of the list. -/
def stripEnds (p : Char → Bool) (l : List Char) : List Char :=
  ((l.dropWhile p).reverse.dropWhile p).reverse

/-- `normalize_name` from `derive_assignment_score.py`:
`re.sub(r'[\s+\-*/]+', '_', name).strip('_')`. -/
def normalize_name (s : String) : String :=
  ⟨stripEnds (fun c => c = '_') (collapseRuns s.data)⟩

/-! ### Lemmas about the normalizer -/

theorem collapseAux_mem_not_opSpace {c : Char} :
    ∀ (l : List Char) (b : Bool), c ∈ collapseAux b l → isOpSpace c = false := by
  intro l
  induction l with
  | nil => intro b h; simp [collapseAux] at h
  | cons x xs ih =>
    intro b h
    by_cases hx : isOpSpace x
    · cases b with
      | true =>
        simp [collapseAux, hx] at h
        exact ih true h
      | false =>
        simp [collapseAux, hx] at h
        rcases h with h | h
        · subst h; rfl
        · exact ih true h
    · simp [collapseAux, hx] at h
      rcases h with h | h
      · subst h; simpa using hx
      · exact ih false h

theorem collapseAux_of_no_opSpace :
    ∀ l : List Char, (∀ c ∈ l, isOpSpace c = false) → collapseAux false l = l := by
  intro l
  induction l with
  | nil => intro _; rfl
  | cons x xs ih =>
    intro h
    have hx : isOpSpace x = false := h x (by simp)
    simp [collapseAux, hx]
    exact ih (fun c hc => h c (by simp [hc]))

theorem dropWhile_idem (p : Char → Bool) :
    ∀ l : List Char, (l.dropWhile p).dropWhile p = l.dropWhile p := by
  intro l
  induction l with
  | nil => rfl
  | cons x xs ih =>
    by_cases hx : p x
    · simp [List.dropWhile_cons, hx, ih]
    · simp [List.dropWhile_cons, hx]

theorem dropWhile_sublist (p : Char → Bool) (l : List Char) :
    (l.dropWhile p).Sublist l := by
  induction l with
  | nil => simp
  | cons x xs ih =>
    by_cases hx : p x
    · simp only [List.dropWhile_cons, hx, if_pos]
      exact ih.trans (List.sublist_cons_self x xs)
    · simp [List.dropWhile_cons, hx]

theorem stripEnds_sublist (p : Char → Bool) (l : List Char) :
    (stripEnds p l).Sublist l := by
  unfold stripEnds
  have h1 : ((l.dropWhile p).reverse.dropWhile p).Sublist (l.dropWhile p).reverse :=
    dropWhile_sublist p _
  have h2 : ((l.dropWhile p).reverse.dropWhile p).reverse.Sublist (l.dropWhile p) := by
    simpa using h1.reverse
  exact h2.trans (dropWhile_sublist p l)

theorem dropWhile_head?_not (p : Char → Bool) :
    ∀ (l : List Char) (c : Char), (l.dropWhile p).head? = some c → p c = false := by
  intro l
  induction l with
  | nil => intro c h; simp at h
  | cons x xs ih =>
    intro c h
    by_cases hx : p x
    · rw [List.dropWhile_cons, if_pos hx] at h
      exact ih c h
    · rw [List.dropWhile_cons, if_neg hx] at h
      simp at h
      subst h
      simpa using hx

theorem dropWhile_eq_self_of_head (p : Char → Bool) (l : List Char)
    (h : ∀ c, l.head? = some c → p c = false) : l.dropWhile p = l := by
  cases l with
  | nil => rfl
  | cons x xs =>
    have hx : p x = false := h x rfl
    simp [List.dropWhile_cons, hx]

/-- The result of `stripEnds` starts with a character not satisfying `p`. -/
theorem stripEnds_head?_not (p : Char → Bool) (l : List Char) (c : Char)
    (h : (stripEnds p l).head? = some c) : p c = false := by
  unfold stripEnds at h
  rw [List.head?_reverse] at h
  -- `getLast?` of a `dropWhile` result is the `getLast?` of the whole list
  set A := l.dropWhile p with hA
  set B := A.reverse.dropWhile p with hB
  have hsplit : A.reverse.takeWhile p ++ B = A.reverse := List.takeWhile_append_dropWhile p A.reverse
  have hBne : B ≠ [] := by
    intro hnil
    rw [hnil] at h
    simp at h
  have hlast : B.getLast? = A.reverse.getLast? := by
    conv_rhs => rw [← hsplit]
    exact (List.getLast?_append_of_ne_nil _ hBne).symm
  rw [hlast] at h
  rw [List.getLast?_reverse] at h
  exact dropWhile_head?_not p l c h

theorem stripEnds_idem (p : Char → Bool) (l : List Char) :
    stripEnds p (stripEnds p l) = stripEnds p l := by
  have h1 : (stripEnds p l).dropWhile p = stripEnds p l :=
    dropWhile_eq_self_of_head p _ (fun c hc => stripEnds_head?_not p l c hc)
  show ((((stripEnds p l).dropWhile p).reverse.dropWhile p).reverse) = stripEnds p l
  rw [h1]
  unfold stripEnds
  rw [List.reverse_reverse, dropWhile_idem]

/-- C6 helper: every character of a normalized name survives from the
collapse phase, hence is not an operator/space character. -/
theorem normalize_name_chars (s : String) :
    ∀ c ∈ (normalize_name s).data, isOpSpace c = false := by
  intro c hc
  have hsub : (stripEnds (fun c => c = '_') (collapseRuns s.data)).Sublist
      (collapseRuns s.data) := stripEnds_sublist _ _
  have hmem : c ∈ collapseRuns s.data := hsub.mem hc
  exact collapseAux_mem_not_opSpace _ false hmem

/-- C6: `normalize_name` collapses every run of whitespace/operator
characters to one underscore and strips edge underscores; it is idempotent,
and identifies "Quiz - 1", "Quiz-1" and "Quiz 1" with "Quiz_1". -/
theorem normalize_name_idempotent_and_examples :
    (∀ x : String, normalize_name (normalize_name x) = normalize_name x) ∧
    normalize_name "Quiz - 1" = "Quiz_1" ∧
    normalize_name "Quiz-1" = "Quiz_1" ∧
    normalize_name "Quiz 1" = "Quiz_1" := by
  refine ⟨?_, by decide, by decide, by decide⟩
  intro x
  have hchars := normalize_name_chars x
  have hcollapse : collapseRuns (normalize_name x).data = (normalize_name x).data :=
    collapseAux_of_no_opSpace _ hchars
  show (⟨stripEnds (fun c => c = '_') (collapseRuns (normalize_name x).data)⟩ : String)
      = normalize_name x
  rw [hcollapse]
  show (⟨stripEnds (fun c => c = '_')
      (stripEnds (fun c => c = '_') (collapseRuns x.data))⟩ : String) = normalize_name x
  rw [stripEnds_idem]
  rfl

/-! ## Duration formatting (`validate_course_setup.format_timedelta`)

A `datetime.timedelta` is modelled by its total microseconds (the
resolution Python stores).  `int(td.total_seconds())` truncates toward
zero (`Int.tdiv`); Python `//` and `%` are floor division and floor
modulus (`Int.fdiv`, `Int.fmod`). -/

def format_timedelta (us : Int) : String :=
  let total_seconds := Int.tdiv us 1000000
  if total_seconds = 0 then "0 seconds"
  else
    let days := Int.fdiv total_seconds 86400
    let hours := Int.fdiv (Int.fmod total_seconds 86400) 3600
    let minutes := Int.fdiv (Int.fmod total_seconds 3600) 60
    let parts : List String :=
      (if days ≠ 0 then [toString days ++ " day" ++ (if days ≠ 1 then "s" else "")] else [])
      ++ (if hours ≠ 0 then [toString hours ++ " hour" ++ (if hours ≠ 1 then "s" else "")] else [])
      ++ (if minutes ≠ 0 then [toString minutes ++ " minute" ++ (if minutes ≠ 1 then "s" else "")] else [])
    if parts.isEmpty then "0 seconds" else String.intercalate ", " parts

/-- C10: a strictly positive duration below one minute renders exactly like
zero: sub-minute remainders are discarded and the empty-components fallback
is "0 seconds". -/
theorem format_timedelta_subminute (us : Int) (h1 : 0 < us) (h2 : us < 60000000) :
    format_timedelta us = "0 seconds" := by
  unfold format_timedelta
  have hts0 : 0 ≤ Int.tdiv us 1000000 := by
    rw [Int.tdiv_eq_ediv (by omega) (by norm_num)]
    omega
  have hts60 : Int.tdiv us 1000000 < 60 := by
    rw [Int.tdiv_eq_ediv (by omega) (by norm_num)]
    omega
  set ts := Int.tdiv us 1000000 with hts
  by_cases h0 : ts = 0
  · simp [h0]
  · rw [if_neg h0]
    have hmod1 : Int.fmod ts 86400 = ts := by
      rw [Int.fmod_eq_emod _ (by norm_num)]
      omega
    have hmod2 : Int.fmod ts 3600 = ts := by
      rw [Int.fmod_eq_emod _ (by norm_num)]
      omega
    have hdays : Int.fdiv ts 86400 = 0 := by
      rw [Int.fdiv_eq_ediv _ (by norm_num)]
      omega
    have hhours : Int.fdiv (Int.fmod ts 86400) 3600 = 0 := by
      rw [hmod1, Int.fdiv_eq_ediv _ (by norm_num)]
      omega
    have hminutes : Int.fdiv (Int.fmod ts 3600) 60 = 0 := by
      rw [hmod2, Int.fdiv_eq_ediv _ (by norm_num)]
      omega
    simp [hdays, hhours, hminutes]

/-- C10 witness: five seconds renders as "0 seconds". -/
theorem format_timedelta_subminute_witness :
    (0 : Int) < 5000000 ∧ (5000000 : Int) < 60000000 ∧
      format_timedelta 5000000 = "0 seconds" :=
  ⟨by norm_num, by norm_num, format_timedelta_subminute 5000000 (by norm_num) (by norm_num)⟩

/-! ## Change-score ledger (`derive_assignment_score.py`)

`build_change_score_comment` renders Python numbers with `str()`; a Python
int or float value in positional-decimal range is modelled as `PyNum`
(sign, integer part, printed fractional digits), with exact rational
value `PyNum.toQ`.  `parse_change_score_comment` is the pair of anchored
regexes plus `float()`, which can raise `ValueError` (modelled as
`Except.error ()`). -/

def isPyDigit (c : Char) : Bool := '0' ≤ c && c ≤ '9'

/-- The regex character class `[\d.]`. -/
def isDigitDot (c : Char) : Bool := isPyDigit c || c = '.'

/-- ASCII whitespace as matched by `\s` / stripped by `str.strip()`. -/
def isPyWs (c : Char) : Bool :=
  c = ' ' || c = '\t' || c = '\n' || c = '\r' || c = '\x0b' || c = '\x0c'

def digitChar (d : ℕ) : Char := Char.ofNat (48 + d)

/-- Decimal digits of `n`, most significant first (`str(n)` for a Python
int); `fuel` only bounds the recursion depth. -/
def natStrAux (fuel : ℕ) (n : ℕ) : List Char :=
  match fuel with
  | 0 => []
  | f + 1 => if n < 10 then [digitChar n] else natStrAux f (n / 10) ++ [digitChar (n % 10)]

def natStr (n : ℕ) : List Char := natStrAux (n + 1) n

/-- Numeric value of a digit string (the accumulator loop inside
`float()` / `int()`). -/
def natOfDigits (l : List Char) : ℕ :=
  l.foldl (fun acc c => 10 * acc + (c.toNat - 48)) 0

/-- A Python number as printed by `str()` in positional decimal form:
optional sign, integer part, and the digits printed after the point
(empty for an int such as `85`, `[0]` for a float such as `85.0`). -/
structure PyNum where
  neg : Bool
  intPart : ℕ
  frac : List (Fin 10)
  deriving DecidableEq

def fracNat (l : List (Fin 10)) : ℕ := l.foldl (fun acc d => 10 * acc + d.val) 0

def PyNum.chars (p : PyNum) : List Char :=
  (cond p.neg ['-'] []) ++ natStr p.intPart ++
    (if p.frac.isEmpty then [] else '.' :: p.frac.map fun d => digitChar d.val)

def PyNum.str (p : PyNum) : String := ⟨p.chars⟩

/-- Exact rational value of the printed number. -/
def PyNum.toQ (p : PyNum) : ℚ :=
  (cond p.neg (-1) 1) * ((p.intPart : ℚ) + (fracNat p.frac : ℚ) / 10 ^ p.frac.length)

/-- `build_change_score_comment` from `derive_assignment_score.py`. -/
def build_change_score_comment (previous_score : Option PyNum) (new_score : PyNum) : String :=
  match previous_score with
  | none => "change-score new: " ++ new_score.str
  | some p => "change-score previous: " ++ p.str ++ " new: " ++ new_score.str

/-! ### The two anchored regexes, as straight-line matchers

Both regexes are of the form
`^change-score\s+previous:\s*([\d.]+)\s+new:\s*([\d.]+)$` /
`^change-score\s+new:\s*([\d.]+)$`.  Every boundary between consecutive
pieces separates disjoint character classes, so greedy maximal-munch
matching is exact (no backtracking can occur). -/

/-- Consume an exact literal. -/
def chompLit : List Char → List Char → Option (List Char)
  | [], l => some l
  | _ :: _, [] => none
  | c :: cs, x :: xs => if x = c then chompLit cs xs else none

/-- Consume `\s+`. -/
def chompWs1 : List Char → Option (List Char)
  | [] => none
  | c :: cs => if isPyWs c then some (cs.dropWhile isPyWs) else none

/-- Consume `([\d.]+)`, returning the captured group and the rest. -/
def chompGroup (l : List Char) : Option (List Char × List Char) :=
  let g := l.takeWhile isDigitDot
  if g.isEmpty then none else some (g, l.dropWhile isDigitDot)

/-- `CHANGE_SCORE_WITH_PREV.match`, returning the two captured groups. -/
def matchWithPrev (l : List Char) : Option (List Char × List Char) := do
  let l ← chompLit "change-score".data l
  let l ← chompWs1 l
  let l ← chompLit "previous:".data l
  let l := l.dropWhile isPyWs
  let (g1, l) ← chompGroup l
  let l ← chompWs1 l
  let l ← chompLit "new:".data l
  let l := l.dropWhile isPyWs
  let (g2, l) ← chompGroup l
  if l.isEmpty then some (g1, g2) else none

/-- `CHANGE_SCORE_NO_PREV.match`, returning the captured group. -/
def matchNoPrev (l : List Char) : Option (List Char) := do
  let l ← chompLit "change-score".data l
  let l ← chompWs1 l
  let l ← chompLit "new:".data l
  let l := l.dropWhile isPyWs
  let (g, l) ← chompGroup l
  if l.isEmpty then some g else none

/-- The fractional case of `float()`: integer-part digits `a`, fractional
digits `b` (either may be empty, but not both). -/
def pyFloatFracCase (a b : List Char) : Option ℚ :=
  if a.isEmpty && b.isEmpty then none
  else some ((natOfDigits a : ℚ) + (natOfDigits b : ℚ) / 10 ^ b.length)

/-- `float()` applied to a regex group matched by `[\d.]+`: fails
(`ValueError`) unless the group has at most one dot and at least one
digit. -/
def pyFloatOfGroup (g : List Char) : Option ℚ :=
  if g.count '.' = 0 then some (natOfDigits g : ℚ)
  else if g.count '.' = 1 then
    pyFloatFracCase (g.takeWhile fun c => c ≠ '.') ((g.dropWhile fun c => c ≠ '.').tail)
  else none

/-- The non-empty-string body of `parse_change_score_comment` (the source
calls `comment_text.strip()` separately for each regex). -/
def parseCSCString (s : String) : Except Unit (Option (Option ℚ × ℚ)) :=
  if s.data.isEmpty then .ok none
  else
    match matchWithPrev (stripEnds isPyWs s.data) with
    | some (g1, g2) =>
      match pyFloatOfGroup g1, pyFloatOfGroup g2 with
      | some p, some n => .ok (some (some p, n))
      | _, _ => .error ()
    | none =>
      match matchNoPrev (stripEnds isPyWs s.data) with
      | some g =>
        match pyFloatOfGroup g with
        | some n => .ok (some (none, n))
        | none => .error ()
      | none => .ok none

/-- `parse_change_score_comment`: returns `none` for text that is not a
change-score record (including `None` and empty input); raises
(`Except.error`) when a matched numeric field is rejected by `float()`. -/
def parse_change_score_comment (comment_text : Option String) :
    Except Unit (Option (Option ℚ × ℚ)) :=
  match comment_text with
  | none => .ok none
  | some s => parseCSCString s

/-! ### `find_last_manual_score` -/

/-- The first loop of `find_last_manual_score`: parse every comment,
keeping the records in order (a `ValueError` from `float()` propagates). -/
def collectRecords : List String → Except Unit (List (Option ℚ × ℚ))
  | [] => .ok []
  | c :: cs =>
    match parse_change_score_comment (some c) with
    | .error e => .error e
    | .ok none => collectRecords cs
    | .ok (some r) =>
      match collectRecords cs with
      | .error e => .error e
      | .ok rs => .ok (r :: rs)

/-- The final loop of `find_last_manual_score`: scan records (already in
reverse order), chaining `target` through matching records, with an early
`None` return when a matching record has no previous value. -/
def walkChain (target : ℚ) : List (Option ℚ × ℚ) → Option ℚ
  | [] => some target
  | (prev, new) :: rest =>
    if new = target then
      match prev with
      | none => none
      | some p => walkChain p rest
    else walkChain target rest

/-- Lines 179-200 of `derive_assignment_score.py`, on the parsed records. -/
def chainLogic (current_score : Option ℚ) (parsed : List (Option ℚ × ℚ)) : Option ℚ :=
  match parsed.getLast? with
  | none => current_score
  | some (latest_prev, latest_new) =>
    if current_score ≠ some latest_new then current_score
    else
      match latest_prev with
      | none => none
      | some p => walkChain p parsed.dropLast.reverse

def find_last_manual_score (current_score : Option ℚ) (comments : List String) :
    Except Unit (Option ℚ) :=
  (collectRecords comments).map (chainLogic current_score)

/-! ### Character and digit lemmas -/

theorem digitChar_isPyDigit {d : ℕ} (h : d < 10) : isPyDigit (digitChar d) = true := by
  interval_cases d <;> decide

theorem digitChar_val {d : ℕ} (h : d < 10) : (digitChar d).toNat - 48 = d := by
  interval_cases d <;> decide

theorem isPyDigit_isDigitDot {c : Char} (h : isPyDigit c = true) : isDigitDot c = true := by
  simp [isDigitDot, h]

theorem isPyDigit_ne_dot {c : Char} (h : isPyDigit c = true) : c ≠ '.' := by
  intro he
  subst he
  simp [isPyDigit] at h

theorem isDigitDot_not_ws {c : Char} (h : isDigitDot c = true) : isPyWs c = false := by
  by_contra hw
  simp only [Bool.not_eq_false] at hw
  simp only [isPyWs, Bool.or_eq_true, decide_eq_true_eq] at hw
  rcases hw with ((((h1 | h1) | h1) | h1) | h1) | h1 <;> subst h1 <;>
    simp [isDigitDot, isPyDigit] at h

/-! ### `natOfDigits` and `natStr` -/

theorem natOfDigits_shift (l : List Char) :
    ∀ a : ℕ, l.foldl (fun acc c => 10 * acc + (c.toNat - 48)) a
      = a * 10 ^ l.length + natOfDigits l := by
  induction l with
  | nil => intro a; simp [natOfDigits]
  | cons c cs ih =>
    intro a
    show cs.foldl _ (10 * a + (c.toNat - 48)) = a * 10 ^ (c :: cs).length + natOfDigits (c :: cs)
    rw [ih (10 * a + (c.toNat - 48))]
    show _ = a * 10 ^ (cs.length + 1) + cs.foldl _ (10 * 0 + (c.toNat - 48))
    rw [ih (10 * 0 + (c.toNat - 48))]
    ring

theorem natOfDigits_append (l1 l2 : List Char) :
    natOfDigits (l1 ++ l2) = natOfDigits l1 * 10 ^ l2.length + natOfDigits l2 := by
  unfold natOfDigits
  rw [List.foldl_append]
  exact natOfDigits_shift l2 _

theorem natStrAux_spec :
    ∀ fuel n, n < fuel →
      natOfDigits (natStrAux fuel n) = n ∧ natStrAux fuel n ≠ [] ∧
        ∀ c ∈ natStrAux fuel n, isPyDigit c = true := by
  intro fuel
  induction fuel with
  | zero => intro n h; omega
  | succ f ih =>
    intro n h
    by_cases h10 : n < 10
    · refine ⟨?_, by simp [natStrAux, h10], ?_⟩
      · simp only [natStrAux, h10, if_pos]
        show natOfDigits [digitChar n] = n
        simp [natOfDigits, digitChar_val h10]
      · simp only [natStrAux, h10, if_pos]
        intro c hc
        simp at hc
        subst hc
        exact digitChar_isPyDigit h10
    · have hdivlt : n / 10 < f := by omega
      obtain ⟨ih1, ih2, ih3⟩ := ih (n / 10) hdivlt
      simp only [natStrAux, h10, if_neg, if_false]
      refine ⟨?_, by simp, ?_⟩
      · rw [natOfDigits_append, ih1]
        have : natOfDigits [digitChar (n % 10)] = n % 10 := by
          simp [natOfDigits, digitChar_val (Nat.mod_lt n (by norm_num))]
        rw [this]
        simp
        omega
      · intro c hc
        simp at hc
        rcases hc with hc | hc
        · exact ih3 c hc
        · subst hc
          exact digitChar_isPyDigit (Nat.mod_lt n (by norm_num))

theorem natStr_spec (n : ℕ) :
    natOfDigits (natStr n) = n ∧ natStr n ≠ [] ∧ ∀ c ∈ natStr n, isPyDigit c = true :=
  natStrAux_spec (n + 1) n (by omega)

/-! ### `takeWhile` / `dropWhile` utilities -/

theorem takeWhile_all {p : Char → Bool} :
    ∀ l : List Char, (∀ c ∈ l, p c = true) → l.takeWhile p = l := by
  intro l
  induction l with
  | nil => intro _; rfl
  | cons x xs ih =>
    intro h
    have hx : p x = true := h x (by simp)
    simp only [List.takeWhile_cons, hx, if_pos]
    rw [ih (fun c hc => h c (by simp [hc]))]

theorem dropWhile_all {p : Char → Bool} :
    ∀ l : List Char, (∀ c ∈ l, p c = true) → l.dropWhile p = [] := by
  intro l
  induction l with
  | nil => intro _; rfl
  | cons x xs ih =>
    intro h
    have hx : p x = true := h x (by simp)
    simp only [List.dropWhile_cons, hx, if_pos]
    exact ih (fun c hc => h c (by simp [hc]))

theorem takeWhile_append_all {p : Char → Bool} :
    ∀ l1 l2 : List Char, (∀ c ∈ l1, p c = true) →
      (l1 ++ l2).takeWhile p = l1 ++ l2.takeWhile p := by
  intro l1
  induction l1 with
  | nil => intro l2 _; rfl
  | cons x xs ih =>
    intro l2 h
    have hx : p x = true := h x (by simp)
    simp only [List.cons_append, List.takeWhile_cons, hx, if_pos]
    rw [ih l2 (fun c hc => h c (by simp [hc]))]

theorem dropWhile_append_all {p : Char → Bool} :
    ∀ l1 l2 : List Char, (∀ c ∈ l1, p c = true) →
      (l1 ++ l2).dropWhile p = l2.dropWhile p := by
  intro l1
  induction l1 with
  | nil => intro l2 _; rfl
  | cons x xs ih =>
    intro l2 h
    have hx : p x = true := h x (by simp)
    simp only [List.cons_append, List.dropWhile_cons, hx, if_pos]
    exact ih l2 (fun c hc => h c (by simp [hc]))

theorem stripEnds_eq_self (p : Char → Bool) (l : List Char)
    (hhead : ∀ c, l.head? = some c → p c = false)
    (hlast : ∀ c, l.getLast? = some c → p c = false) : stripEnds p l = l := by
  unfold stripEnds
  rw [dropWhile_eq_self_of_head p l hhead]
  have : l.reverse.dropWhile p = l.reverse := by
    apply dropWhile_eq_self_of_head
    intro c hc
    rw [List.head?_reverse] at hc
    exact hlast c hc
  rw [this, List.reverse_reverse]

/-! ### `PyNum` rendering lemmas -/

theorem pynum_chars_nonneg (p : PyNum) (h : p.neg = false) :
    p.chars = natStr p.intPart ++
      (if p.frac.isEmpty then [] else '.' :: p.frac.map fun d => digitChar d.val) := by
  simp [PyNum.chars, h]

theorem pynum_chars_ne_nil (p : PyNum) (h : p.neg = false) : p.chars ≠ [] := by
  rw [pynum_chars_nonneg p h]
  have := (natStr_spec p.intPart).2.1
  intro hc
  rcases List.append_eq_nil.mp hc with ⟨h1, _⟩
  exact this h1

theorem pynum_chars_all_digitdot (p : PyNum) (h : p.neg = false) :
    ∀ c ∈ p.chars, isDigitDot c = true := by
  rw [pynum_chars_nonneg p h]
  intro c hc
  rcases List.mem_append.mp hc with hc | hc
  · exact isPyDigit_isDigitDot ((natStr_spec p.intPart).2.2 c hc)
  · by_cases hf : p.frac.isEmpty
    · simp [hf] at hc
    · simp only [hf, if_neg, if_false] at hc
      rcases List.mem_cons.mp hc with hc | hc
      · subst hc; decide
      · obtain ⟨d, _, hd⟩ := List.mem_map.mp hc
        subst hd
        exact isPyDigit_isDigitDot (digitChar_isPyDigit d.isLt)

theorem natOfDigits_map_digitChar (l : List (Fin 10)) :
    natOfDigits (l.map fun d => digitChar d.val) = fracNat l := by
  unfold natOfDigits fracNat
  rw [List.foldl_map]
  congr 1
  funext acc d
  rw [digitChar_val d.isLt]

theorem count_dot_natStr (n : ℕ) : (natStr n).count '.' = 0 := by
  rw [List.count_eq_zero]
  intro hmem
  exact isPyDigit_ne_dot ((natStr_spec n).2.2 '.' hmem) rfl

theorem count_dot_map_digitChar (l : List (Fin 10)) :
    ((l.map fun d => digitChar d.val).count '.') = 0 := by
  rw [List.count_eq_zero]
  intro hmem
  obtain ⟨d, _, hd⟩ := List.mem_map.mp hmem
  exact isPyDigit_ne_dot (digitChar_isPyDigit d.isLt) hd

/-- `float(str(x))` recovers the exact value of a non-negative `PyNum`. -/
theorem pyFloatOfGroup_pynum (p : PyNum) (h : p.neg = false) :
    pyFloatOfGroup p.chars = some p.toQ := by
  obtain ⟨hval, hne, hdig⟩ := natStr_spec p.intPart
  rw [pynum_chars_nonneg p h]
  by_cases hf : p.frac.isEmpty
  · have hfrac : p.frac = [] := by simpa [List.isEmpty_iff] using hf
    simp only [hf, if_pos]
    unfold pyFloatOfGroup
    rw [List.append_nil]
    rw [count_dot_natStr, if_pos rfl, hval]
    simp [PyNum.toQ, h, hfrac, fracNat]
  · have hcond : (if p.frac.isEmpty then ([] : List Char)
        else '.' :: p.frac.map fun d => digitChar d.val)
        = '.' :: p.frac.map fun d => digitChar d.val := by
      simp [hf]
    rw [hcond]
    unfold pyFloatOfGroup
    have hcount : ((natStr p.intPart ++ '.' :: p.frac.map fun d => digitChar d.val).count '.') = 1 := by
      rw [List.count_append, count_dot_natStr]
      simp [count_dot_map_digitChar]
    rw [hcount]
    have hnatne : ∀ c ∈ natStr p.intPart, (decide ¬c = '.') = true := by
      intro c hc
      simpa using isPyDigit_ne_dot (hdig c hc)
    have htake : ((natStr p.intPart ++ '.' :: p.frac.map fun d => digitChar d.val).takeWhile
        fun c => decide ¬c = '.') = natStr p.intPart := by
      rw [takeWhile_append_all _ _ hnatne]
      simp [List.takeWhile_cons]
    have hdrop : ((natStr p.intPart ++ '.' :: p.frac.map fun d => digitChar d.val).dropWhile
        fun c => decide ¬c = '.') = '.' :: p.frac.map fun d => digitChar d.val := by
      rw [dropWhile_append_all _ _ hnatne]
      simp [List.dropWhile_cons]
    rw [if_neg (by norm_num), if_pos rfl, htake, hdrop, List.tail_cons]
    have hae : (natStr p.intPart).isEmpty = false := by
      cases hcase : natStr p.intPart with
      | nil => exact absurd hcase hne
      | cons a as => rfl
    unfold pyFloatFracCase
    rw [hae]
    simp only [Bool.false_and, Bool.false_eq_true, if_false]
    rw [hval, natOfDigits_map_digitChar, List.length_map]
    simp [PyNum.toQ, h]

/-! ### Matcher lemmas -/

theorem chompLit_self_append : ∀ pre rest : List Char, chompLit pre (pre ++ rest) = some rest := by
  intro pre
  induction pre with
  | nil => intro rest; rfl
  | cons c cs ih =>
    intro rest
    simp [chompLit, ih]

theorem chompWs1_space (X : List Char) :
    chompWs1 (' ' :: X) = some (X.dropWhile isPyWs) := by
  have hws : isPyWs ' ' = true := by decide
  simp [chompWs1, hws]

theorem dropWhile_ws_of_digitdot (l : List Char) (hall : ∀ c ∈ l, isDigitDot c = true) :
    l.dropWhile isPyWs = l := by
  apply dropWhile_eq_self_of_head
  intro c hc
  exact isDigitDot_not_ws (hall c (List.mem_of_mem_head? (by rw [hc]; exact Option.mem_some_iff.mpr rfl)))

theorem chompGroup_all (l : List Char) (hall : ∀ c ∈ l, isDigitDot c = true) (hne : l ≠ []) :
    chompGroup l = some (l, []) := by
  unfold chompGroup
  rw [takeWhile_all l hall, dropWhile_all l hall]
  have he : l.isEmpty = false := by
    cases l with
    | nil => exact absurd rfl hne
    | cons a as => rfl
  simp [he]

/-- The group capture stops exactly at the space after the digits:
`chompGroup (g ++ (' ' :: rest)) = some (g, ' ' :: rest)`. -/
theorem chompGroup_append_space (g rest : List Char)
    (hall : ∀ c ∈ g, isDigitDot c = true) (hne : g ≠ []) :
    chompGroup (g ++ (' ' :: rest)) = some (g, ' ' :: rest) := by
  unfold chompGroup
  have hsp : isDigitDot ' ' = false := by decide
  rw [takeWhile_append_all g _ hall, dropWhile_append_all g _ hall]
  rw [List.takeWhile_cons, List.dropWhile_cons]
  simp only [hsp, Bool.false_eq_true, if_false]
  rw [List.append_nil]
  have he : g.isEmpty = false := by
    cases g with
    | nil => exact absurd rfl hne
    | cons a as => rfl
  simp [he]

theorem matchNoPrev_build (tail : List Char)
    (hall : ∀ c ∈ tail, isDigitDot c = true) (hne : tail ≠ []) :
    matchNoPrev ("change-score new: ".data ++ tail) = some tail := by
  have e1 : "change-score new: ".data ++ tail
      = "change-score".data ++ (' ' :: ("new:".data ++ (' ' :: tail))) := by
    have h : "change-score new: ".data
        = "change-score".data ++ (' ' :: ("new:".data ++ [' '])) := by decide
    rw [h]
    simp
  have e2 : ("new:".data ++ (' ' :: tail)).dropWhile isPyWs = "new:".data ++ (' ' :: tail) := by
    apply dropWhile_eq_self_of_head
    intro c hc
    have hn : "new:".data = 'n' :: "ew:".data := by decide
    rw [hn] at hc
    simp at hc
    subst hc
    decide
  unfold matchNoPrev
  rw [e1, chompLit_self_append]
  simp only [Option.bind_eq_bind, Option.some_bind]
  rw [chompWs1_space, e2]
  simp only [Option.some_bind]
  rw [chompLit_self_append]
  simp only [Option.some_bind]
  rw [List.dropWhile_cons]
  have hws : isPyWs ' ' = true := by decide
  simp only [hws, if_pos]
  rw [dropWhile_ws_of_digitdot tail hall]
  rw [chompGroup_all tail hall hne]
  simp

theorem matchWithPrev_noprev_build (tail : List Char) :
    matchWithPrev ("change-score new: ".data ++ tail) = none := by
  have e1 : "change-score new: ".data ++ tail
      = "change-score".data ++ (' ' :: ("new:".data ++ (' ' :: tail))) := by
    have h : "change-score new: ".data
        = "change-score".data ++ (' ' :: ("new:".data ++ [' '])) := by decide
    rw [h]
    simp
  have e2 : ("new:".data ++ (' ' :: tail)).dropWhile isPyWs = "new:".data ++ (' ' :: tail) := by
    apply dropWhile_eq_self_of_head
    intro c hc
    have hn : "new:".data = 'n' :: "ew:".data := by decide
    rw [hn] at hc
    simp at hc
    subst hc
    decide
  have e3 : chompLit "previous:".data ("new:".data ++ (' ' :: tail)) = none := by
    have hn : "new:".data = 'n' :: "ew:".data := by decide
    have hp : "previous:".data = 'p' :: "revious:".data := by decide
    rw [hn, hp]
    simp [chompLit]
  unfold matchWithPrev
  rw [e1, chompLit_self_append]
  simp only [Option.bind_eq_bind, Option.some_bind]
  rw [chompWs1_space, e2]
  simp only [Option.some_bind]
  rw [e3]
  simp

theorem matchWithPrev_build (g1 g2 : List Char)
    (hall1 : ∀ c ∈ g1, isDigitDot c = true) (hne1 : g1 ≠ [])
    (hall2 : ∀ c ∈ g2, isDigitDot c = true) (hne2 : g2 ≠ []) :
    matchWithPrev ("change-score previous: ".data ++ (g1 ++ (" new: ".data ++ g2)))
      = some (g1, g2) := by
  have e1 : "change-score previous: ".data ++ (g1 ++ (" new: ".data ++ g2))
      = "change-score".data
          ++ (' ' :: ("previous:".data ++ (' ' :: (g1 ++ (' ' :: ("new:".data ++ (' ' :: g2))))))) := by
    have h1 : "change-score previous: ".data
        = "change-score".data ++ (' ' :: ("previous:".data ++ [' '])) := by decide
    have h2 : " new: ".data = ' ' :: ("new:".data ++ [' ']) := by decide
    rw [h1, h2]
    simp
  have e2 : ("previous:".data ++ (' ' :: (g1 ++ (' ' :: ("new:".data ++ (' ' :: g2)))))).dropWhile isPyWs
      = "previous:".data ++ (' ' :: (g1 ++ (' ' :: ("new:".data ++ (' ' :: g2))))) := by
    apply dropWhile_eq_self_of_head
    intro c hc
    have hp : "previous:".data = 'p' :: "revious:".data := by decide
    rw [hp] at hc
    simp at hc
    subst hc
    decide
  have e3 : ("new:".data ++ (' ' :: g2)).dropWhile isPyWs = "new:".data ++ (' ' :: g2) := by
    apply dropWhile_eq_self_of_head
    intro c hc
    have hn : "new:".data = 'n' :: "ew:".data := by decide
    rw [hn] at hc
    simp at hc
    subst hc
    decide
  have hws : isPyWs ' ' = true := by decide
  unfold matchWithPrev
  rw [e1, chompLit_self_append]
  simp only [Option.bind_eq_bind, Option.some_bind]
  rw [chompWs1_space, e2]
  simp only [Option.some_bind]
  rw [chompLit_self_append]
  simp only [Option.some_bind]
  rw [List.dropWhile_cons]
  simp only [hws, if_pos]
  obtain ⟨c1, t1, rfl⟩ : ∃ c1 t1, g1 = c1 :: t1 := by
    cases g1 with
    | nil => exact absurd rfl hne1
    | cons a as => exact ⟨a, as, rfl⟩
  have hc1 : isPyWs c1 = false := isDigitDot_not_ws (hall1 c1 (by simp))
  rw [List.cons_append, List.dropWhile_cons]
  simp only [hc1, Bool.false_eq_true, if_false]
  rw [← List.cons_append]
  rw [chompGroup_append_space _ _ hall1 hne1]
  simp only [Option.some_bind]
  rw [chompWs1_space, e3]
  simp only [Option.some_bind]
  rw [chompLit_self_append]
  simp only [Option.some_bind]
  rw [List.dropWhile_cons]
  simp only [hws, if_pos]
  rw [dropWhile_ws_of_digitdot g2 hall2]
  rw [chompGroup_all g2 hall2 hne2]
  simp

/-! ### Round-trip assembly (claim C2) -/

theorem stripBuildEnds (pre tail : List Char)
    (hpre : pre.head? = some 'c')
    (htail : ∀ c ∈ tail, isDigitDot c = true) (hne : tail ≠ []) :
    stripEnds isPyWs (pre ++ tail) = pre ++ tail := by
  apply stripEnds_eq_self
  · intro c hc
    rw [List.head?_append_of_ne_nil] at hc
    · rw [hpre] at hc
      injection hc with hc
      subst hc
      decide
    · intro hnil
      rw [hnil] at hpre
      simp at hpre
  · intro c hc
    rw [List.getLast?_append_of_ne_nil _ hne] at hc
    exact isDigitDot_not_ws (htail c (List.mem_of_getLast?_eq_some hc))

theorem roundtrip_noprev (n : PyNum) (hn : n.neg = false) :
    parse_change_score_comment (some (build_change_score_comment none n))
      = .ok (some (none, n.toQ)) := by
  have hdd := pynum_chars_all_digitdot n hn
  have hnnil := pynum_chars_ne_nil n hn
  show parseCSCString ("change-score new: " ++ n.str) = _
  have hdata : ("change-score new: " ++ n.str).data = "change-score new: ".data ++ n.chars := by
    rw [String.data_append]
    rfl
  unfold parseCSCString
  rw [hdata]
  have hempty : ("change-score new: ".data ++ n.chars).isEmpty = false := by
    have : "change-score new: ".data = 'c' :: "hange-score new: ".data := by decide
    rw [this]
    rfl
  rw [hempty]
  simp only [Bool.false_eq_true, if_false]
  have hpre : ("change-score new: ".data).head? = some 'c' := by decide
  rw [stripBuildEnds _ _ hpre hdd hnnil]
  rw [matchWithPrev_noprev_build, matchNoPrev_build n.chars hdd hnnil]
  simp [pyFloatOfGroup_pynum n hn]

theorem roundtrip_withprev (p n : PyNum) (hp : p.neg = false) (hn : n.neg = false) :
    parse_change_score_comment (some (build_change_score_comment (some p) n))
      = .ok (some (some p.toQ, n.toQ)) := by
  have hdd1 := pynum_chars_all_digitdot p hp
  have hnnil1 := pynum_chars_ne_nil p hp
  have hdd2 := pynum_chars_all_digitdot n hn
  have hnnil2 := pynum_chars_ne_nil n hn
  show parseCSCString ("change-score previous: " ++ p.str ++ " new: " ++ n.str) = _
  have hdata : ("change-score previous: " ++ p.str ++ " new: " ++ n.str).data
      = "change-score previous: ".data ++ (p.chars ++ (" new: ".data ++ n.chars)) := by
    rw [String.data_append, String.data_append, String.data_append]
    show ("change-score previous: ".data ++ p.chars ++ " new: ".data ++ n.chars) = _
    simp [List.append_assoc]
  unfold parseCSCString
  rw [hdata]
  have hempty : ("change-score previous: ".data ++ (p.chars ++ (" new: ".data ++ n.chars))).isEmpty
      = false := by
    have : "change-score previous: ".data = 'c' :: "hange-score previous: ".data := by decide
    rw [this]
    rfl
  rw [hempty]
  simp only [Bool.false_eq_true, if_false]
  have hpre : ("change-score previous: ".data).head? = some 'c' := by decide
  have hstrip : stripEnds isPyWs
      ("change-score previous: ".data ++ (p.chars ++ (" new: ".data ++ n.chars)))
      = "change-score previous: ".data ++ (p.chars ++ (" new: ".data ++ n.chars)) := by
    apply stripEnds_eq_self
    · intro c hc
      rw [List.head?_append_of_ne_nil] at hc
      · rw [hpre] at hc
        injection hc with hc
        subst hc
        decide
      · intro hnil
        rw [hnil] at hpre
        simp at hpre
    · intro c hc
      rw [List.getLast?_append_of_ne_nil, List.getLast?_append_of_ne_nil,
        List.getLast?_append_of_ne_nil _ hnnil2] at hc
      · exact isDigitDot_not_ws (hdd2 c (List.mem_of_getLast?_eq_some hc))
      · intro hnil
        rcases List.append_eq_nil.mp hnil with ⟨_, h2⟩
        exact hnnil2 h2
      · intro hnil
        rcases List.append_eq_nil.mp hnil with ⟨_, h2⟩
        rcases List.append_eq_nil.mp h2 with ⟨_, h3⟩
        exact hnnil2 h3
  rw [hstrip]
  rw [matchWithPrev_build p.chars n.chars hdd1 hnnil1 hdd2 hnnil2]
  simp [pyFloatOfGroup_pynum p hp, pyFloatOfGroup_pynum n hn]

/-- C2 (amended): the change-score round trip holds for every previous/new
pair whose values are non-negative (as rendered in positional decimal
form), and any text matched by neither regex parses to `none` (not an
error). -/
theorem parse_build_roundtrip_nonneg :
    (∀ (p : Option PyNum) (n : PyNum), (∀ q ∈ p, q.neg = false) → n.neg = false →
      parse_change_score_comment (some (build_change_score_comment p n))
        = .ok (some (p.map PyNum.toQ, n.toQ))) ∧
    (∀ s : String, matchWithPrev (stripEnds isPyWs s.data) = none →
      matchNoPrev (stripEnds isPyWs s.data) = none →
      parse_change_score_comment (some s) = .ok none) := by
  constructor
  · rintro (_ | p) n hp hn
    · simpa using roundtrip_noprev n hn
    · have hpneg : p.neg = false := hp p (Option.mem_some_self p)
      simpa using roundtrip_withprev p n hpneg hn
  · intro s h1 h2
    show parseCSCString s = _
    unfold parseCSCString
    cases he : s.data.isEmpty
    · rw [if_neg (by simp), h1, h2]
    · rw [if_pos rfl]

/-- C2 witness: the round trip at previous = 85.0, new = 90.0. -/
theorem parse_build_roundtrip_nonneg_witness :
    parse_change_score_comment (some (build_change_score_comment
        (some ⟨false, 85, [0]⟩) ⟨false, 90, [0]⟩))
      = .ok (some (some (PyNum.toQ ⟨false, 85, [0]⟩), PyNum.toQ ⟨false, 90, [0]⟩)) :=
  parse_build_roundtrip_nonneg.1 (some ⟨false, 85, [0]⟩) ⟨false, 90, [0]⟩
    (fun q hq => by rw [← Option.mem_some.mp hq]) rfl

/-- The number -1.0: `build` renders it with a minus sign, which the regex
class `[\d.]+` can never match. -/
def c2neg : PyNum := ⟨true, 1, [0]⟩

/-- C2 counterexample: the round trip fails for the negative number -1.0
(the built comment parses as "not a change-score record"), and the
off-shape text "change-score new: .." raises `ValueError` instead of
returning `none`. -/
theorem parse_build_roundtrip_counterexample :
    parse_change_score_comment (some (build_change_score_comment none c2neg)) ≠
      .ok (some (none, c2neg.toQ)) ∧
    parse_change_score_comment (some "change-score new: ..") = .error () := by
  constructor
  · intro h
    rw [show parse_change_score_comment (some (build_change_score_comment none c2neg))
        = .ok none from rfl] at h
    simp at h
  · rfl

/-! ### Chain reconstruction (claim C3): spec-side description

`specWalk`/`specChain`/`findLastManualScoreSpec` restate the claim's words:
take the last record; if the current score differs from its `new`, return
the current score; otherwise start from its `previous` (`None` terminating)
and walk the earlier records in reverse order, replacing the target by a
record's `previous` whenever that record's `new` equals the target and
skipping non-matching records. -/

def specWalk (records : List (Option ℚ × ℚ)) (target : ℚ) : Option ℚ :=
  records.foldl
    (fun acc r =>
      match acc with
      | none => none
      | some t => if r.2 = t then r.1 else some t)
    (some target)

def specChain (current : Option ℚ) (records : List (Option ℚ × ℚ)) : Option ℚ :=
  match records.reverse with
  | [] => current
  | (lp, ln) :: earlier =>
    if current = some ln then
      match lp with
      | none => none
      | some t => specWalk earlier t
    else current

def findLastManualScoreSpec (current : Option ℚ) (comments : List String) :
    Except Unit (Option ℚ) :=
  (collectRecords comments).map (specChain current)

theorem specWalk_none (records : List (Option ℚ × ℚ)) :
    records.foldl
      (fun acc r =>
        match acc with
        | none => none
        | some t => if r.2 = t then r.1 else some t)
      none = none := by
  induction records with
  | nil => rfl
  | cons r rest ih => simpa using ih

theorem walkChain_eq_specWalk :
    ∀ (l : List (Option ℚ × ℚ)) (t : ℚ), walkChain t l = specWalk l t := by
  intro l
  induction l with
  | nil => intro t; rfl
  | cons r rest ih =>
    intro t
    obtain ⟨prev, new⟩ := r
    show walkChain t ((prev, new) :: rest) = specWalk ((prev, new) :: rest) t
    unfold walkChain specWalk
    by_cases hn : new = t
    · simp only [hn, if_pos]
      cases prev with
      | none =>
        show (none : Option ℚ) = List.foldl _ (if t = t then none else some t) rest
        rw [if_pos rfl]
        exact (specWalk_none rest).symm
      | some p =>
        show walkChain p rest = List.foldl _ (if t = t then some p else some t) rest
        rw [if_pos rfl]
        exact ih p
    · simp only [hn, Bool.false_eq_true, if_neg, if_false]
      show walkChain t rest = List.foldl _ (if new = t then prev else some t) rest
      rw [if_neg hn]
      exact ih t

theorem chainLogic_eq_specChain (current : Option ℚ) (records : List (Option ℚ × ℚ)) :
    chainLogic current records = specChain current records := by
  induction records using List.reverseRecOn with
  | nil => rfl
  | append_singleton l a _ =>
    obtain ⟨lp, ln⟩ := a
    unfold chainLogic specChain
    rw [List.getLast?_concat, List.dropLast_concat, List.reverse_append]
    simp only [List.reverse_cons, List.reverse_nil, List.nil_append, List.singleton_append]
    by_cases hc : current = some ln
    · rw [if_neg (by simpa using hc), if_pos hc]
      cases lp with
      | none => rfl
      | some t => exact walkChain_eq_specWalk l.reverse t
    · rw [if_pos (by simpa using hc), if_neg hc]

/-! ### Concrete evaluations used by the C3 example -/

theorem pyFloat_85_0 : pyFloatOfGroup ['8', '5', '.', '0'] = some 85 := by
  unfold pyFloatOfGroup
  rw [if_neg (by decide), if_pos (by decide)]
  rw [show (['8', '5', '.', '0'].takeWhile fun c => c ≠ '.') = ['8', '5'] from by decide]
  rw [show ((['8', '5', '.', '0'].dropWhile fun c => c ≠ '.').tail) = ['0'] from by decide]
  unfold pyFloatFracCase
  rw [if_neg (by decide)]
  rw [show natOfDigits ['8', '5'] = 85 from by decide]
  rw [show natOfDigits ['0'] = 0 from by decide]
  norm_num

theorem pyFloat_90_0 : pyFloatOfGroup ['9', '0', '.', '0'] = some 90 := by
  unfold pyFloatOfGroup
  rw [if_neg (by decide), if_pos (by decide)]
  rw [show (['9', '0', '.', '0'].takeWhile fun c => c ≠ '.') = ['9', '0'] from by decide]
  rw [show ((['9', '0', '.', '0'].dropWhile fun c => c ≠ '.').tail) = ['0'] from by decide]
  unfold pyFloatFracCase
  rw [if_neg (by decide)]
  rw [show natOfDigits ['9', '0'] = 90 from by decide]
  rw [show natOfDigits ['0'] = 0 from by decide]
  norm_num

theorem pyFloat_95_0 : pyFloatOfGroup ['9', '5', '.', '0'] = some 95 := by
  unfold pyFloatOfGroup
  rw [if_neg (by decide), if_pos (by decide)]
  rw [show (['9', '5', '.', '0'].takeWhile fun c => c ≠ '.') = ['9', '5'] from by decide]
  rw [show ((['9', '5', '.', '0'].dropWhile fun c => c ≠ '.').tail) = ['0'] from by decide]
  unfold pyFloatFracCase
  rw [if_neg (by decide)]
  rw [show natOfDigits ['9', '5'] = 95 from by decide]
  rw [show natOfDigits ['0'] = 0 from by decide]
  norm_num

theorem parse_85_90 :
    parse_change_score_comment (some "change-score previous: 85.0 new: 90.0")
      = .ok (some (some 85, 90)) := by
  show parseCSCString _ = _
  unfold parseCSCString
  rw [if_neg (by decide)]
  rw [show matchWithPrev (stripEnds isPyWs "change-score previous: 85.0 new: 90.0".data)
      = some (['8', '5', '.', '0'], ['9', '0', '.', '0']) from by decide]
  simp [pyFloat_85_0, pyFloat_90_0]

theorem parse_90_95 :
    parse_change_score_comment (some "change-score previous: 90.0 new: 95.0")
      = .ok (some (some 90, 95)) := by
  show parseCSCString _ = _
  unfold parseCSCString
  rw [if_neg (by decide)]
  rw [show matchWithPrev (stripEnds isPyWs "change-score previous: 90.0 new: 95.0".data)
      = some (['9', '0', '.', '0'], ['9', '5', '.', '0']) from by decide]
  simp [pyFloat_90_0, pyFloat_95_0]

/-- C3: `find_last_manual_score` implements the specified backward
chain-walk (no records / manual-edit / chain cases), and on the records
(85→90), (90→95) with current score 95.0 it returns 85.0. -/
theorem find_last_manual_score_correct :
    (∀ (current : Option ℚ) (comments : List String),
      find_last_manual_score current comments = findLastManualScoreSpec current comments) ∧
    find_last_manual_score (some 95)
        ["change-score previous: 85.0 new: 90.0", "change-score previous: 90.0 new: 95.0"]
      = .ok (some 85) := by
  constructor
  · intro current comments
    unfold find_last_manual_score findLastManualScoreSpec
    rw [funext (chainLogic_eq_specChain current)]
  · have hrec : collectRecords
        ["change-score previous: 85.0 new: 90.0", "change-score previous: 90.0 new: 95.0"]
        = .ok [(some 85, 90), (some 90, 95)] := by
      simp [collectRecords, parse_85_90, parse_90_95]
    unfold find_last_manual_score
    rw [hrec]
    show Except.ok (chainLogic (some 95) [(some 85, 90), (some 90, 95)]) = _
    unfold chainLogic
    norm_num [walkChain]

/-! ## Commit phase of `derive_assignment_score` (claim C5)

Lines 325-340 of `derive_assignment_score.py`: after the per-student
results are computed, the dry-run branch only prints (`info`/`warn`),
while the commit branch calls `submission.edit(...)` once per computed
score.  The remote side is modelled as a map from submission id to
(grade, comment list); `submission.edit` posts a grade and appends a
comment. -/

structure ComputedScore where
  submission_id : ℕ
  user_name : String
  score : PyNum
  previous_score : Option PyNum
  deriving DecidableEq

/-- A remote mutation issued by the command. -/
inductive RemoteEffect where
  | editSubmission (submission_id : ℕ) (posted_grade : ℚ) (text_comment : String)
  deriving DecidableEq

/-- State of the remote gradebook for the target assignment. -/
def RemoteState := ℕ → Option ℚ × List String

def applyEffect (st : RemoteState) : RemoteEffect → RemoteState
  | .editSubmission sid grade comment => fun i =>
    if i = sid then (some grade, (st i).2 ++ [comment]) else st i

def applyEffects (effects : List RemoteEffect) (st : RemoteState) : RemoteState :=
  effects.foldl applyEffect st

/-- The final branch of `derive_assignment_score`: in dry-run mode each
result is only rendered to the console; otherwise `submission.edit` is
called with the posted grade and the ledger comment. -/
def commitPhase (dryrun : Bool) (computed_scores : List ComputedScore) : List RemoteEffect :=
  if dryrun then []
  else
    computed_scores.map fun c =>
      .editSubmission c.submission_id c.score.toQ
        (build_change_score_comment c.previous_score c.score)

/-- C5: in dry-run mode no grade edit and no comment write is issued, and
the remote submission state after the run equals the state before. -/
theorem dryrun_no_mutation :
    ∀ (computed_scores : List ComputedScore) (st : RemoteState),
      commitPhase true computed_scores = [] ∧
      applyEffects (commitPhase true computed_scores) st = st := by
  intro computed_scores st
  exact ⟨rfl, rfl⟩

/-! ## Until-date consistency (`validate_course_setup`, claim C7)

Dates are modelled as parsed microsecond timestamps (`Option Int`,
`none` for a missing `due_at`/`lock_at`); `lock - due` is the
`timedelta` offset fed to `format_timedelta`. -/

structure Assignment where
  name : String
  due_at : Option Int
  lock_at : Option Int
  submission_types : List String
  deriving DecidableEq

/-- `set(a.submission_types) & {'none', 'not_graded'}` is non-empty
(an empty `submission_types` yields the empty set, hence `false`). -/
def hasNonSubmittableType (a : Assignment) : Bool :=
  a.submission_types.any fun t => t = "none" || t = "not_graded"

/-- The per-assignment loop of `check_until_date_consistency_for_group`:
returns the `offset_assignments` list and the `issues` list, in source
append order. -/
def untilLoop : List Assignment → List (String × Int) × List (String × String)
  | [] => ([], [])
  | a :: rest =>
    let t := untilLoop rest
    if hasNonSubmittableType a then
      if a.due_at.isNone then
        (t.1, (a.name, "non-submittable assignment missing due date") :: t.2)
      else t
    else
      match a.due_at, a.lock_at with
      | some due, some lock => ((a.name, lock - due) :: t.1, t.2)
      | some _, none => (t.1, (a.name, "has due date but no until/lock date") :: t.2)
      | none, some _ => (t.1, (a.name, "has until/lock date but no due date") :: t.2)
      | none, none => t

/-- Keys of a `Counter` in first-insertion order. -/
def insertionKeysAux (seen : List Int) : List Int → List Int
  | [] => []
  | x :: xs =>
    if seen.contains x then insertionKeysAux seen xs
    else x :: insertionKeysAux (x :: seen) xs

def insertionKeys (l : List Int) : List Int := insertionKeysAux [] l

/-- `Counter(offsets).most_common(1)[0]`: the earliest-inserted key among
those with maximal count (heapq.nlargest is stable). -/
def mostCommonAux (offsets : List Int) : List Int → Option (Int × ℕ)
  | [] => none
  | k :: ks =>
    match mostCommonAux offsets ks with
    | none => some (k, offsets.count k)
    | some (k', c') =>
      if offsets.count k ≥ c' then some (k, offsets.count k) else some (k', c')

/-- `check_until_date_consistency_for_group` from `validate_course_setup.py`. -/
def check_until_date_consistency_for_group (assignments : List Assignment) :
    Option Int × ℕ × List (String × String) :=
  let r := untilLoop assignments
  match mostCommonAux (r.1.map Prod.snd) (insertionKeys (r.1.map Prod.snd)) with
  | none => (none, 0, r.2)
  | some (mc, cnt) =>
    (some mc, cnt,
      r.2 ++ (r.1.filter fun p => p.2 ≠ mc).map fun p =>
        (p.1, "offset is " ++ format_timedelta p.2 ++ ", expected " ++ format_timedelta mc))

/-- An assignment with both a submittable and a non-submittable type,
carrying both a due and a lock date one day apart. -/
def c7mixed : Assignment :=
  ⟨"Mixed", some 0, some 86400000000, ["none", "online_upload"]⟩

/-- C7 counterexample: `c7mixed` has a submittable type and both dates, so
per the claim its offset would be recorded; the code instead treats it as
non-submittable (the intersection check fires on ANY non-submittable
type), records no offset and flags nothing. -/
theorem check_until_mixed_types_counterexample :
    c7mixed.due_at.isSome = true ∧ c7mixed.lock_at.isSome = true ∧
    "online_upload" ∈ c7mixed.submission_types ∧
    "online_upload" ∉ (["none", "not_graded"] : List String) ∧
    check_until_date_consistency_for_group [c7mixed] = (none, 0, []) := by
  refine ⟨rfl, rfl, by decide, by decide, rfl⟩

/-- C7 (amended): an assignment contributes no offset (and is flagged only
when it also lacks a due date) exactly when its submission types contain
AT LEAST ONE non-submittable type ('none'/'not_graded'); an assignment
with no non-submittable type contributes an offset when both dates exist,
and is flagged 'has due date but no until/lock date' or 'has until/lock
date but no due date' when exactly one exists. -/
theorem untilLoop_classification :
    ∀ l : List Assignment,
      (untilLoop l).1 = l.filterMap (fun a =>
        if hasNonSubmittableType a then none
        else match a.due_at, a.lock_at with
          | some due, some lock => some (a.name, lock - due)
          | _, _ => none) ∧
      (untilLoop l).2 = l.filterMap (fun a =>
        if hasNonSubmittableType a then
          if a.due_at.isNone then
            some (a.name, "non-submittable assignment missing due date")
          else none
        else match a.due_at, a.lock_at with
          | some _, none => some (a.name, "has due date but no until/lock date")
          | none, some _ => some (a.name, "has until/lock date but no due date")
          | _, _ => none) := by
  intro l
  induction l with
  | nil => exact ⟨rfl, rfl⟩
  | cons a rest ih =>
    obtain ⟨ih1, ih2⟩ := ih
    constructor
    · show (untilLoop (a :: rest)).1 = _
      unfold untilLoop
      rw [List.filterMap_cons]
      by_cases hns : hasNonSubmittableType a
      · simp only [hns, if_pos]
        by_cases hdue : a.due_at.isNone
        · simp only [hdue, if_pos]
          exact ih1
        · simp only [hdue, Bool.false_eq_true, if_neg, if_false]
          exact ih1
      · simp only [hns, Bool.false_eq_true, if_neg, if_false]
        cases hd : a.due_at with
        | none =>
          cases hl : a.lock_at with
          | none => exact ih1
          | some lock => exact ih1
        | some due =>
          cases hl : a.lock_at with
          | none => exact ih1
          | some lock => simp [ih1]
    · show (untilLoop (a :: rest)).2 = _
      unfold untilLoop
      rw [List.filterMap_cons]
      by_cases hns : hasNonSubmittableType a
      · simp only [hns, if_pos]
        by_cases hdue : a.due_at.isNone
        · simp only [hdue, if_pos]
          simp [ih2]
        · simp only [hdue, Bool.false_eq_true, if_neg, if_false]
          exact ih2
      · simp only [hns, Bool.false_eq_true, if_neg, if_false]
        cases hd : a.due_at with
        | none =>
          cases hl : a.lock_at with
          | none => exact ih2
          | some lock => simp [ih2]
        | some due =>
          cases hl : a.lock_at with
          | none => simp [ih2]
          | some lock => exact ih2

/-! ## Variable extraction (`derive_assignment_score.extract_variable_names`)

`re.findall(r'\b([a-zA-Z_][a-zA-Z0-9_]*)\b', formula)` matches exactly
the maximal word-character runs whose first character is a letter or
underscore (a run starting with a digit has no word boundary inside it).
The final `list(set(variables))` iterates a CPython set, whose order is
hash-seed dependent and in particular NOT first-occurrence order; it is
modelled here by a deterministic stand-in, ascending lexicographic
order. -/

def isWordChar (c : Char) : Bool := c.isAlpha || c.isDigit || c = '_'

def isIdentStart (c : Char) : Bool := c.isAlpha || c = '_'

/-- Maximal runs of word characters (`cur` holds the current run,
reversed). -/
def wordRunsAux (cur : List Char) : List Char → List (List Char)
  | [] => if cur.isEmpty then [] else [cur.reverse]
  | c :: cs =>
    if isWordChar c then wordRunsAux (c :: cur) cs
    else if cur.isEmpty then wordRunsAux [] cs
    else cur.reverse :: wordRunsAux [] cs

def wordRuns (l : List Char) : List (List Char) := wordRunsAux [] l

/-- `re.findall(r'\b([a-zA-Z_][a-zA-Z0-9_]*)\b', formula)`, in match
order. -/
def findIdentifiers (formula : String) : List String :=
  (wordRuns formula.data).filterMap fun r =>
    match r with
    | [] => none
    | c :: _ => if isIdentStart c then some ⟨r⟩ else none

def SAFE_FUNCTION_NAMES : List String := ["min", "max", "sum", "abs", "round"]

/-- Deduplication keeping first occurrences (the set's contents). -/
def dedupFirstAux (seen : List String) : List String → List String
  | [] => []
  | x :: xs =>
    if seen.contains x then dedupFirstAux seen xs
    else x :: dedupFirstAux (x :: seen) xs

def listCharLe : List Char → List Char → Bool
  | [], _ => true
  | _ :: _, [] => false
  | a :: as, b :: bs =>
    if a.toNat < b.toNat then true
    else if b.toNat < a.toNat then false
    else listCharLe as bs

def strLe (a b : String) : Bool := listCharLe a.data b.data

def insertSorted (x : String) : List String → List String
  | [] => [x]
  | y :: ys => if strLe x y then x :: y :: ys else y :: insertSorted x ys

def sortStrings (l : List String) : List String := l.foldr insertSorted []

/-- `extract_variable_names` from `derive_assignment_score.py`.  The
`list(set(variables))` step is modelled as first-occurrence
deduplication followed by the deterministic stand-in order (see the
section comment). -/
def extract_variable_names (formula : String) : List String :=
  sortStrings (dedupFirstAux []
    ((findIdentifiers formula).filter fun n => ¬ SAFE_FUNCTION_NAMES.contains n))

theorem insertSorted_perm (x : String) :
    ∀ l : List String, (insertSorted x l).Perm (x :: l) := by
  intro l
  induction l with
  | nil => exact List.Perm.refl _
  | cons y ys ih =>
    unfold insertSorted
    by_cases h : strLe x y
    · simp only [h, if_pos]
      exact List.Perm.refl _
    · simp only [h, Bool.false_eq_true, if_neg, if_false]
      exact (ih.cons y).trans (List.Perm.swap x y ys)

theorem sortStrings_perm : ∀ l : List String, (sortStrings l).Perm l := by
  intro l
  induction l with
  | nil => exact List.Perm.refl _
  | cons x xs ih =>
    show (insertSorted x (sortStrings xs)).Perm (x :: xs)
    exact (insertSorted_perm x (sortStrings xs)).trans (ih.cons x)

theorem mem_dedupFirstAux (v : String) :
    ∀ (l seen : List String), v ∈ dedupFirstAux seen l ↔ (v ∈ l ∧ v ∉ seen) := by
  intro l
  induction l with
  | nil => intro seen; simp [dedupFirstAux]
  | cons x xs ih =>
    intro seen
    unfold dedupFirstAux
    by_cases hx : seen.contains x
    · simp only [hx, if_pos]
      rw [ih seen]
      constructor
      · rintro ⟨h1, h2⟩
        exact ⟨List.mem_cons_of_mem x h1, h2⟩
      · rintro ⟨h1, h2⟩
        rcases List.mem_cons.mp h1 with h1 | h1
        · subst h1
          exact absurd (by simpa using hx) h2
        · exact ⟨h1, h2⟩
    · simp only [hx, Bool.false_eq_true, if_neg, if_false]
      constructor
      · intro hmem
        rcases List.mem_cons.mp hmem with hmem | hmem
        · subst hmem
          exact ⟨List.mem_cons_self v xs, by simpa using hx⟩
        · obtain ⟨h1, h2⟩ := (ih (x :: seen)).mp hmem
          refine ⟨List.mem_cons_of_mem x h1, fun hc => h2 (List.mem_cons_of_mem x hc)⟩
      · rintro ⟨h1, h2⟩
        rcases List.mem_cons.mp h1 with h1 | h1
        · subst h1
          exact List.mem_cons_self v _
        · by_cases hvx : v = x
          · subst hvx
            exact List.mem_cons_self v _
          · refine List.mem_cons_of_mem x ((ih (x :: seen)).mpr ⟨h1, ?_⟩)
            intro hc
            rcases List.mem_cons.mp hc with hc | hc
            · exact hvx hc
            · exact h2 hc

theorem nodup_dedupFirstAux :
    ∀ (l seen : List String), (dedupFirstAux seen l).Nodup := by
  intro l
  induction l with
  | nil => intro seen; exact List.nodup_nil
  | cons x xs ih =>
    intro seen
    unfold dedupFirstAux
    by_cases hx : seen.contains x
    · simp only [hx, if_pos]
      exact ih seen
    · simp only [hx, Bool.false_eq_true, if_neg, if_false]
      refine List.Nodup.cons ?_ (ih (x :: seen))
      intro hc
      obtain ⟨_, h2⟩ := (mem_dedupFirstAux x xs (x :: seen)).mp hc
      exact h2 (List.mem_cons_self x seen)

/-- C9 counterexample: in the formula "b + a" the first occurrence order
is ["b", "a"], but `extract_variable_names` (whose `list(set(...))` step
does not preserve first-occurrence order) returns the variables in a
different order. -/
theorem extract_variable_names_order_counterexample :
    findIdentifiers "b + a" = ["b", "a"] ∧
    extract_variable_names "b + a" = ["a", "b"] ∧
    (["a", "b"] : List String) ≠ ["b", "a"] := by
  refine ⟨rfl, rfl, by decide⟩

/-- C9 (amended): `extract_variable_names` returns a duplicate-free list
whose members are exactly the identifiers of the formula (maximal
`[A-Za-z_][A-Za-z0-9_]*` word runs) outside the allowlist
{min, max, sum, abs, round}; the ORDER of the list is unspecified (set
iteration order), not first-occurrence order. -/
theorem extract_variable_names_set_semantics :
    ∀ formula : String,
      (extract_variable_names formula).Nodup ∧
      ∀ v : String, v ∈ extract_variable_names formula ↔
        (v ∈ findIdentifiers formula ∧ v ∉ SAFE_FUNCTION_NAMES) := by
  intro formula
  constructor
  · exact ((sortStrings_perm _).nodup_iff).mpr (nodup_dedupFirstAux _ [])
  · intro v
    unfold extract_variable_names
    rw [(sortStrings_perm _).mem_iff, mem_dedupFirstAux]
    simp [List.mem_filter]

/-! ## Formula compilation and evaluation (`validate_formula`, claims C1/C4)

`compile(formula, '<formula>', 'eval')` accepts exactly the sources that
parse as a single expression; assignment, import and multi-statement
sources raise `SyntaxError`.  `eval(formula, {"__builtins__": {}}, ns)`
is modelled by a fuel-indexed evaluator over the Python expression
fragment the formulas use: numeric literals (exact rationals), names,
unary minus, `+ - * /`, calls, and attribute access.  Values are numbers,
the five allowlisted builtins, bound numeric methods (of which the float
method `__abs__` is modelled), and the empty dict bound to
`__builtins__` in the globals.  Exception TEXTS are abstracted: a
`TypeError` carries only whether its message contains the word
'argument' (the only property `validate_formula` inspects). -/

inductive PyExpr where
  | num (q : ℚ)
  | name (s : String)
  | neg (a : PyExpr)
  | add (a b : PyExpr)
  | sub (a b : PyExpr)
  | mul (a b : PyExpr)
  | div (a b : PyExpr)
  | call (f : PyExpr) (args : List PyExpr)
  | attr (e : PyExpr) (fld : String)

inductive Value where
  | num (q : ℚ)
  | func (name : String)
  | method (recv : ℚ) (name : String)
  | builtinsDict

inductive PyErr where
  | nameError (n : String)
  | typeError (mentionsArgument : Bool)
  | zeroDivision
  | attributeError
  | unboundLocal (n : String)
  | fuel

/-- Name resolution of `eval(formula, {"__builtins__": {}}, namespace)`:
locals first, then the globals dict (which holds only the literal key
`__builtins__` mapped to an empty dict, whence no builtin is ever
reachable). -/
def lookupName (ns : List (String × Value)) (s : String) : Except PyErr Value :=
  match ns.lookup s with
  | some v => .ok v
  | none => if s = "__builtins__" then .ok .builtinsDict else .error (.nameError s)

/-- Python `round()`: round half to even. -/
def pyRoundQ (q : ℚ) : ℚ :=
  let f : ℤ := ⌊q⌋
  let r := q - f
  if r < 1 / 2 then f
  else if 1 / 2 < r then f + 1
  else if f % 2 = 0 then f else f + 1

def pyRoundNdigits (q : ℚ) (d : ℤ) : ℚ := pyRoundQ (q * 10 ^ d) / 10 ^ d

def qList : List Value → Option (List ℚ)
  | [] => some []
  | .num q :: rest => (qList rest).map (q :: ·)
  | _ :: _ => none

def foldMin : ℚ → List ℚ → ℚ
  | acc, [] => acc
  | acc, q :: rest => foldMin (min acc q) rest

def foldMax : ℚ → List ℚ → ℚ
  | acc, [] => acc
  | acc, q :: rest => foldMax (max acc q) rest

/-- Calling one of the five allowlisted builtins on evaluated arguments.
`TypeError`s whose Python message contains 'argument' (arity errors)
carry `true`; those that do not ('not iterable', 'bad operand type',
unsupported comparison) carry `false`. -/
def applyBuiltin (n : String) (args : List Value) : Except PyErr Value :=
  match n, args with
  | "abs", [.num q] => .ok (.num |q|)
  | "abs", [_] => .error (.typeError false)
  | "abs", _ => .error (.typeError true)
  | "round", [.num q] => .ok (.num (pyRoundQ q))
  | "round", [.num q, .num d] =>
    if d.den = 1 then .ok (.num (pyRoundNdigits q d.num)) else .error (.typeError false)
  | "round", [_] => .error (.typeError false)
  | "round", [_, _] => .error (.typeError false)
  | "round", _ => .error (.typeError true)
  | "sum", [_] => .error (.typeError false)
  | "sum", _ => .error (.typeError true)
  | "min", [] => .error (.typeError true)
  | "min", [_] => .error (.typeError false)
  | "min", args =>
    match qList args with
    | some (q :: qs) => .ok (.num (foldMin q qs))
    | _ => .error (.typeError false)
  | "max", [] => .error (.typeError true)
  | "max", [_] => .error (.typeError false)
  | "max", args =>
    match qList args with
    | some (q :: qs) => .ok (.num (foldMax q qs))
    | _ => .error (.typeError false)
  | _, _ => .error (.typeError false)

def applyCallable (v : Value) (args : List Value) : Except PyErr Value :=
  match v with
  | .num _ => .error (.typeError false)
  | .builtinsDict => .error (.typeError false)
  | .method recv m =>
    if m = "__abs__" then
      match args with
      | [] => .ok (.num |recv|)
      | _ => .error (.typeError true)
    else .error (.typeError false)
  | .func n => applyBuiltin n args

/-- `getattr` on a value: the modelled fragment is the float method
`__abs__`; other attribute accesses are modelled as `AttributeError`. -/
def getAttr (v : Value) (fld : String) : Except PyErr Value :=
  match v with
  | .num q => if fld = "__abs__" then .ok (.method q "__abs__") else .error .attributeError
  | _ => .error .attributeError

/-- One layer of the evaluator; `recur` evaluates strict subterms.
Operands evaluate left to right; `x / y` checks the zero denominator
before dividing (`ZeroDivisionError`). -/
def evalStep (recur : List (String × Value) → PyExpr → Except PyErr Value)
    (ns : List (String × Value)) : PyExpr → Except PyErr Value
  | .num q => .ok (.num q)
  | .name s => lookupName ns s
  | .neg a => do
    match ← recur ns a with
    | .num q => .ok (.num (-q))
    | _ => .error (.typeError false)
  | .add a b => do
    match ← recur ns a, ← recur ns b with
    | .num x, .num y => .ok (.num (x + y))
    | _, _ => .error (.typeError false)
  | .sub a b => do
    match ← recur ns a, ← recur ns b with
    | .num x, .num y => .ok (.num (x - y))
    | _, _ => .error (.typeError false)
  | .mul a b => do
    match ← recur ns a, ← recur ns b with
    | .num x, .num y => .ok (.num (x * y))
    | _, _ => .error (.typeError false)
  | .div a b => do
    match ← recur ns a, ← recur ns b with
    | .num x, .num y => if y = 0 then .error .zeroDivision else .ok (.num (x / y))
    | _, _ => .error (.typeError false)
  | .call f args => do
    let vf ← recur ns f
    let vargs ← args.mapM (recur ns)
    applyCallable vf vargs
  | .attr a fld => do
    getAttr (← recur ns a) fld

/-- Fuel-indexed evaluator; the fuel only bounds the recursion depth and
is chosen large enough that it is never exhausted. -/
def evalFuel : ℕ → List (String × Value) → PyExpr → Except PyErr Value
  | 0 => fun _ _ => .error .fuel
  | fuelLeft + 1 => evalStep (evalFuel fuelLeft)

/-- `eval(formula, {"__builtins__": {}}, ns)`. -/
def pyEval (ns : List (String × Value)) (e : PyExpr) : Except PyErr Value :=
  evalFuel 1000 ns e

/-- A Python source string handed to `compile(·, '<formula>', 'eval')`:
either a single expression, or source whose top level is statement
syntax. -/
inductive PySrc where
  | exprSrc (e : PyExpr)
  | assignSrc (target : String) (value : PyExpr)
  | importSrc (module : String)
  | multiSrc (first second : PySrc)

/-- `compile(formula, '<formula>', 'eval')`: accepts exactly single
expressions; assignment, import and multi-statement sources raise
`SyntaxError`. -/
def compileEval : PySrc → Option PyExpr
  | .exprSrc e => some e
  | _ => none

/-- `dict(SAFE_FUNCTIONS)` updated with the probe bindings
(`{var: 50.0 for var in var_names}`); updated keys take precedence. -/
def probeNamespace (var_names : List String) : List (String × Value) :=
  (var_names.map fun v => (v, Value.num 50)) ++ SAFE_FUNCTION_NAMES.map fun n => (n, Value.func n)

/-- `validate_formula` from `derive_assignment_score.py`.  NOTE the
`ZeroDivisionError` branch: the source runs `pass` and then evaluates
`isinstance(result, (int, float))` with the local `result` never
assigned, so the function raises `UnboundLocalError` instead of
returning. -/
def validate_formula (src : PySrc) (var_names : List String) : Except PyErr (Option String) :=
  match compileEval src with
  | none => .ok (some "Syntax error")
  | some e =>
    match pyEval (probeNamespace var_names) e with
    | .error (.nameError n) =>
      .ok (some (if SAFE_FUNCTION_NAMES.contains n
        then "Function '" ++ n ++ "' failed unexpectedly - please report this bug"
        else "Unknown name '" ++ n
          ++ "'. Assignment variables use _ for spaces and math operators. "
          ++ "Available functions: abs, max, min, round, sum"))
    | .error (.typeError true) => .ok (some "Function call error")
    | .error (.typeError false) => .ok (some "Type error")
    | .error .zeroDivision => .error (.unboundLocal "result")
    | .error _ => .ok (some "Formula error")
    | .ok (.num _) => .ok none
    | .ok _ => .ok (some "Formula must produce a number")

mutual
def containsAttr : PyExpr → Bool
  | .num _ => false
  | .name _ => false
  | .neg a => containsAttr a
  | .add a b => containsAttr a || containsAttr b
  | .sub a b => containsAttr a || containsAttr b
  | .mul a b => containsAttr a || containsAttr b
  | .div a b => containsAttr a || containsAttr b
  | .call f args => containsAttr f || containsAttrList args
  | .attr _ _ => true

def containsAttrList : List PyExpr → Bool
  | [] => false
  | e :: es => containsAttr e || containsAttrList es
end

/-- The formula `(1.5).__abs__()`: a pure attribute-access call whose
probe evaluation yields the float 1.5. -/
def c1Attack : PyExpr := .call (.attr (.num (3 / 2)) "__abs__") []

/-- The formula `x/0` (variable names extracted: `["x"]`): its probe
evaluation raises `ZeroDivisionError`. -/
def c4Formula : PyExpr := .div (.name "x") (.num 0)

/-- C1: the formula `(1.5).__abs__()` contains attribute access, yet
`validate_formula` accepts it with no diagnostic (eval-mode compilation
admits attribute access, the probe returns the number 1.5, and the
`isinstance` check passes), contradicting the claim that attribute
access must be rejected at validation. -/
theorem validate_formula_accepts_attribute_access :
    containsAttr c1Attack = true ∧
    validate_formula (.exprSrc c1Attack) ["__abs__"] = .ok none := by
  constructor
  · simp [c1Attack, containsAttr]
  · rfl

/-- C4: on the formula `x/0` (whose probe evaluation divides by zero),
`validate_formula` does not return success: the `except ZeroDivisionError:
pass` branch leaves the local `result` unassigned, and the following
`isinstance(result, ...)` raises `UnboundLocalError`. -/
theorem validate_formula_zero_division_raises :
    validate_formula (.exprSrc c4Formula) ["x"] = .error (.unboundLocal "result") := by
  rfl

/-! ## Link classification (`validate_course_setup.classify_link`, claim C8)

`urllib.parse.urlparse` is modelled for the URL shapes the validator
meets (no `;parameters`, no userinfo): optional `scheme:` (a leading
letter followed by letters/digits/`+ - .` up to the first colon,
lowercased), optional `//netloc` (up to the first of `/ ? #`), then the
fragment split at the first `#`, then the query split at the first `?`;
the remainder is the path. -/

structure UrlParts where
  scheme : String
  netloc : String
  path : String
  query : String
  fragment : String
  deriving DecidableEq

def isSchemeChar (c : Char) : Bool := c.isAlpha || c.isDigit || c = '+' || c = '-' || c = '.'

def schemeSplitAux (acc : List Char) : List Char → Option (List Char × List Char)
  | [] => none
  | c :: cs =>
    if c = ':' then some (acc.reverse, cs)
    else if isSchemeChar c then schemeSplitAux (c :: acc) cs
    else none

/-- Split off `scheme:` when the text before the first colon is a valid
non-empty scheme starting with a letter. -/
def schemeSplit (l : List Char) : Option (List Char × List Char) :=
  match l with
  | [] => none
  | c :: _ => if c.isAlpha then schemeSplitAux [] l else none

/-- Split at the first occurrence of `sep`; absent separator leaves the
second component empty. -/
def splitOnFirst (sep : Char) (l : List Char) : List Char × List Char :=
  (l.takeWhile fun c => c ≠ sep, (l.dropWhile fun c => c ≠ sep).tail)

def pyUrlparse (s : String) : UrlParts :=
  let p1 :=
    match schemeSplit s.data with
    | some (sc, rest) => (sc.map Char.toLower, rest)
    | none => ([], s.data)
  let p2 :=
    match p1.2 with
    | '/' :: '/' :: r =>
      ((r.takeWhile fun c => c ≠ '/' && c ≠ '?' && c ≠ '#', r.dropWhile fun c => c ≠ '/' && c ≠ '?' && c ≠ '#') : List Char × List Char)
    | other => ([], other)
  let p3 := splitOnFirst '#' p2.2
  let p4 := splitOnFirst '?' p3.1
  ⟨⟨p1.1⟩, ⟨p2.1⟩, ⟨p4.1⟩, ⟨p4.2⟩, ⟨p3.2⟩⟩

def strStartsWith (s pre : String) : Bool := pre.data.isPrefixOf s.data

/-- `path.split('?')[0].split('#')[0]`. -/
def stripQueryFragment (path : String) : String :=
  ⟨(path.data.takeWhile fun c => c ≠ '?').takeWhile fun c => c ≠ '#'⟩

/-- `not url or url.startswith('#') or url.startswith('mailto:') or
url.startswith('javascript:')`. -/
def isSkipUrl (u : String) : Bool :=
  u.data.isEmpty || strStartsWith u "#" || strStartsWith u "mailto:"
    || strStartsWith u "javascript:"

inductive LinkCategory where
  | internal
  | internal_other
  | external
  | skip
  deriving DecidableEq

/-- `classify_link` from `validate_course_setup.py`. -/
def classify_link (url : Option String) (canvas_domain : String) (course_id : ℕ) :
    LinkCategory × Option String :=
  match url with
  | none => (.skip, none)
  | some u =>
    if isSkipUrl u then (.skip, none)
    else
      let parsed := pyUrlparse u
      if parsed.scheme = "" ∧ parsed.netloc = "" then
        if strStartsWith parsed.path ("/courses/" ++ toString course_id) then
          (.internal, some (stripQueryFragment parsed.path))
        else if strStartsWith parsed.path "/courses/" then
          (.internal_other, some parsed.path)
        else (.skip, none)
      else
        let canvas_parsed := pyUrlparse canvas_domain
        if parsed.netloc = canvas_parsed.netloc then
          if strStartsWith parsed.path ("/courses/" ++ toString course_id) then
            (.internal, some (stripQueryFragment parsed.path))
          else if strStartsWith parsed.path "/courses/" then
            (.internal_other, some parsed.path)
          else (.skip, none)
        else (.external, some u)

/-- C8: `classify_link` skips empty/None, fragment-only, `mailto:` and
`javascript:` URLs; for relative URLs (no scheme, no authority) it
classifies same-course `/courses/{id}` paths as internal (normalized by
stripping query and fragment) and other `/courses/` paths as
internal_other; it compares origins only for absolute URLs, classifying
same-origin course paths likewise and foreign origins as external; the
test vectors of the spec behave accordingly. -/
theorem classify_link_spec :
    ∀ (u origin : String) (cid : ℕ),
      classify_link none origin cid = (.skip, none) ∧
      (isSkipUrl u = true → classify_link (some u) origin cid = (.skip, none)) ∧
      (isSkipUrl u = false → (pyUrlparse u).scheme = "" → (pyUrlparse u).netloc = "" →
        (strStartsWith (pyUrlparse u).path ("/courses/" ++ toString cid) = true →
          classify_link (some u) origin cid
            = (.internal, some (stripQueryFragment (pyUrlparse u).path))) ∧
        (strStartsWith (pyUrlparse u).path ("/courses/" ++ toString cid) = false →
          strStartsWith (pyUrlparse u).path "/courses/" = true →
          classify_link (some u) origin cid = (.internal_other, some (pyUrlparse u).path))) ∧
      (isSkipUrl u = false → ¬((pyUrlparse u).scheme = "" ∧ (pyUrlparse u).netloc = "") →
        (pyUrlparse u).netloc = (pyUrlparse origin).netloc →
        (strStartsWith (pyUrlparse u).path ("/courses/" ++ toString cid) = true →
          classify_link (some u) origin cid
            = (.internal, some (stripQueryFragment (pyUrlparse u).path))) ∧
        (strStartsWith (pyUrlparse u).path ("/courses/" ++ toString cid) = false →
          strStartsWith (pyUrlparse u).path "/courses/" = true →
          classify_link (some u) origin cid = (.internal_other, some (pyUrlparse u).path))) ∧
      (isSkipUrl u = false → ¬((pyUrlparse u).scheme = "" ∧ (pyUrlparse u).netloc = "") →
        (pyUrlparse u).netloc ≠ (pyUrlparse origin).netloc →
        classify_link (some u) origin cid = (.external, some u)) ∧
      classify_link (some "#x") "https://canvas.example.com" 123 = (.skip, none) ∧
      classify_link (some "mailto:a@b.com") "https://canvas.example.com" 123 = (.skip, none) ∧
      classify_link (some "javascript:void(0)") "https://canvas.example.com" 123
        = (.skip, none) ∧
      classify_link (some "") "https://canvas.example.com" 123 = (.skip, none) ∧
      classify_link (some "/courses/123/pages/syllabus?foo=bar#frag")
          "https://canvas.example.com" 123
        = (.internal, some "/courses/123/pages/syllabus") ∧
      classify_link (some "/courses/999/pages/something") "https://canvas.example.com" 123
        = (.internal_other, some "/courses/999/pages/something") ∧
      classify_link (some "https://canvas.example.com/courses/123/assignments/5")
          "https://canvas.example.com" 123
        = (.internal, some "/courses/123/assignments/5") ∧
      classify_link (some "https://google.com") "https://canvas.example.com" 123
        = (.external, some "https://google.com") := by
  intro u origin cid
  refine ⟨rfl, ?_, ?_, ?_, ?_, by decide, by decide, by decide, by decide, by decide, by decide,
    by decide, by decide⟩
  · intro hskip
    show (if isSkipUrl u then ((.skip, none) : LinkCategory × Option String) else _) = _
    rw [hskip]
    rfl
  · intro hskip hscheme hnetloc
    constructor
    · intro hpath
      show (if isSkipUrl u then ((.skip, none) : LinkCategory × Option String) else _) = _
      rw [hskip]
      simp only [Bool.false_eq_true, if_false]
      rw [if_pos ⟨hscheme, hnetloc⟩, if_pos hpath]
    · intro hpath1 hpath2
      show (if isSkipUrl u then ((.skip, none) : LinkCategory × Option String) else _) = _
      rw [hskip]
      simp only [Bool.false_eq_true, if_false]
      rw [if_pos ⟨hscheme, hnetloc⟩, if_neg (by rw [hpath1]; exact Bool.false_ne_true),
        if_pos hpath2]
  · intro hskip habs hnet
    constructor
    · intro hpath
      show (if isSkipUrl u then ((.skip, none) : LinkCategory × Option String) else _) = _
      rw [hskip]
      simp only [Bool.false_eq_true, if_false]
      rw [if_neg habs, if_pos hnet, if_pos hpath]
    · intro hpath1 hpath2
      show (if isSkipUrl u then ((.skip, none) : LinkCategory × Option String) else _) = _
      rw [hskip]
      simp only [Bool.false_eq_true, if_false]
      rw [if_neg habs, if_pos hnet, if_neg (by rw [hpath1]; exact Bool.false_ne_true),
        if_pos hpath2]
  · intro hskip habs hnet
    show (if isSkipUrl u then ((.skip, none) : LinkCategory × Option String) else _) = _
    rw [hskip]
    simp only [Bool.false_eq_true, if_false]
    rw [if_neg habs, if_neg hnet]

/-- C8 witness: the fragment-only URL "#x" is skipped, via the general
skip clause of `classify_link_spec`. -/
theorem classify_link_spec_witness :
    classify_link (some "#x") "https://canvas.example.com" 123 = (.skip, none) :=
  (classify_link_spec "#x" "https://canvas.example.com" 123).2.1 (by decide)

end CanvasSak
